import Mathlib

/-!
Verification development for the SATG scenario generator
(`bluesky/plugins/SATG.py`).

Shallow-embedding conventions used throughout this file:

* Python floats are modelled as exact rationals (`ℚ`).
* Python `round` (round half to even) is `pyRound`; fixed-point string
  formatting (`f"{x:.pf}"`) is `fmtF`, which performs the same half-even
  rounding on the integer pair `(q.num * 10^p, q.den)` so that it stays
  kernel-computable.
* Timestamps parsed from scenario lines (`_parse_ts`) are kept as a whole
  number of seconds plus the list of fractional decimal digits (`Ts`);
  `Ts.toQ` is the rational value `h*3600 + m*60 + s` computed by the
  source, and `Ts.le` decides the order of those values exactly
  (`Ts.le_iff_toQ`).
* `random.Random` draws are modelled by explicit function parameters
  (a seeded generator is a deterministic function of its seed); the
  great-circle destination `_dest_nm`/`geo.qdrpos` — trigonometric and
  hence not exactly computable — is an explicit function parameter
  `destFn` of the encounter synthesizer.
* A scenario file is a list of text lines, each line including its
  trailing newline, exactly as produced by `f.write(...)` and re-read by
  `readlines()`.
-/

namespace SATG

/-- Little-endian decimal digits of `n` (empty for `0`), with fuel for
structural recursion; `digitsLE n n` is total because `n / 10 < n`. -/
def digitsLE : ℕ → ℕ → List ℕ
  | 0, _ => []
  | fuel + 1, n => if n = 0 then [] else n % 10 :: digitsLE fuel (n / 10)

/-- The character for a decimal digit. -/
def digitChar (d : ℕ) : Char := Char.ofNat (48 + d)

/-- Decimal rendering of a natural number, as Python `str(n)`. -/
def natStr (n : ℕ) : String :=
  if n = 0 then "0" else ⟨((digitsLE n n).reverse).map digitChar⟩

/-- Decimal rendering of an integer, as Python `str(i)`. -/
def intStr (i : ℤ) : String :=
  if i < 0 then "-" ++ natStr i.natAbs else natStr i.natAbs

/-- Python `str.zfill`: pad on the left with `'0'` up to width `w`
(our uses never involve a sign character). -/
def zfill (w : ℕ) (s : String) : String :=
  ⟨List.replicate (w - s.data.length) '0' ++ s.data⟩

/-- Value of a little-endian decimal digit list. -/
def valLE : List ℕ → ℕ
  | [] => 0
  | d :: ds => d + 10 * valLE ds

/-- Numeric value of a big-endian string of decimal digit characters,
as Python `int(...)` on a digit string. -/
def charsVal (l : List Char) : ℕ :=
  valLE ((l.map (fun c => c.toNat - 48)).reverse)

/-- Prefix test on character lists (regex/`str` helper). -/
def isPrefixB : List Char → List Char → Bool
  | [], _ => true
  | _ :: _, [] => false
  | p :: ps, c :: cs => p = c && isPrefixB ps cs

/-- Python `pat in s` substring containment, on character lists. -/
def listContains (pat : List Char) : List Char → Bool
  | [] => isPrefixB pat []
  | c :: rest => isPrefixB pat (c :: rest) || listContains pat rest

/-- ASCII whitespace, as matched by `\s` in the source's regexes. -/
def isPySpace (c : Char) : Bool :=
  c = ' ' || c = '\t' || c = '\n' || c = '\r' || c = '\x0b' || c = '\x0c'

/-- Characters allowed in an aircraft identifier by the scanning regex
class `[A-Za-z0-9_-]`. -/
def isAcidChar (c : Char) : Bool :=
  ('A' ≤ c && c ≤ 'Z') || ('a' ≤ c && c ≤ 'z') || ('0' ≤ c && c ≤ '9') || c = '_' || c = '-'

/-- Stable insertion of an element into a sorted list. -/
def insertLe {α : Type} (le : α → α → Bool) (a : α) : List α → List α
  | [] => [a]
  | b :: l => if le a b then a :: b :: l else b :: insertLe le a l

/-- Stable insertion sort, modelling Python's stable `sorted`/`list.sort`. -/
def sortLe {α : Type} (le : α → α → Bool) : List α → List α
  | [] => []
  | a :: l => insertLe le a (sortLe le l)

/-- Round half to even on the exact value `a / b` (with `b > 0`): the
integer-level rounding used by fixed-point float formatting. -/
def roundHalfEvenInt (a : ℤ) (b : ℕ) : ℤ :=
  let f := Int.fdiv a b
  let r := a - f * b
  if 2 * r < b then f else if (b : ℤ) < 2 * r then f + 1 else if f % 2 = 0 then f else f + 1

/-- Python `round(q)`: round half to even, on the exact rational value. -/
def pyRound (q : ℚ) : ℤ :=
  if q - ⌊q⌋ < 1 / 2 then ⌊q⌋
  else if (1 : ℚ) / 2 < q - ⌊q⌋ then ⌊q⌋ + 1
  else if ⌊q⌋ % 2 = 0 then ⌊q⌋ else ⌊q⌋ + 1

/-- Python float `%` (result has the sign of the divisor):
`a % b = a - b * ⌊a / b⌋`. -/
def qmod (a b : ℚ) : ℚ := a - b * ⌊a / b⌋

/-- Fixed-point rendering of a non-negative integer scaled by `10^p`
(the digit-assembly step of `f"{x:.pf}"`). -/
def fmtFNat (m p : ℕ) : String :=
  if p = 0 then natStr m
  else
    let s := zfill (p + 1) (natStr m)
    ⟨s.data.take (s.data.length - p)⟩ ++ "." ++ ⟨s.data.drop (s.data.length - p)⟩

/-- Python `f"{q:.pf}"`: round half to even at `p` decimal places and
render with exactly `p` fraction digits. -/
def fmtF (q : ℚ) (p : ℕ) : String :=
  let n := roundHalfEvenInt (q.num * 10 ^ p) q.den
  if n < 0 then "-" ++ fmtFNat n.natAbs p else fmtFNat n.toNat p

/-- A parsed line timestamp (`_parse_ts`): whole seconds
`h*3600 + m*60 + ss` plus the fractional decimal digits. -/
structure Ts where
  sec : ℕ
  frac : List ℕ
deriving DecidableEq

/-- Value of a big-endian fraction-digit list as an integer. -/
def fracValBE (f : List ℕ) : ℕ := f.foldl (fun a d => 10 * a + d) 0

/-- Pad a fraction-digit list with trailing zeros to length `L`. -/
def padTo (L : ℕ) (f : List ℕ) : List ℕ := f ++ List.replicate (L - f.length) 0

/-- The timestamp value scaled by `10^L` (exact for `L ≥` the number of
fraction digits). -/
def Ts.scaled (t : Ts) (L : ℕ) : ℕ := t.sec * 10 ^ L + fracValBE (padTo L t.frac)

/-- The rational value of a parsed timestamp, i.e. the float
`h*3600.0 + m*60.0 + s` computed by `_parse_ts`. -/
def Ts.toQ (t : Ts) : ℚ := t.sec + (fracValBE t.frac : ℚ) / 10 ^ t.frac.length

/-- Decidable order on timestamp values (agrees with `Ts.toQ ≤ Ts.toQ`,
see `Ts.le_iff_toQ`). -/
def Ts.le (a b : Ts) : Bool :=
  decide (a.scaled (max a.frac.length b.frac.length) ≤ b.scaled (max a.frac.length b.frac.length))

/-- Decidable strict order on timestamp values. -/
def Ts.lt (a b : Ts) : Bool :=
  decide (a.scaled (max a.frac.length b.frac.length) < b.scaled (max a.frac.length b.frac.length))

/-- Decidable equality of timestamp values (`"1.5"` and `"1.50"` parse to
equal float values). -/
def Ts.eqv (a b : Ts) : Bool :=
  decide (a.scaled (max a.frac.length b.frac.length) = b.scaled (max a.frac.length b.frac.length))

/-- `_parse_ts`: match `^\s*(\d+):(\d{2}):(\d{2}(?:\.\d+)?)>` at the start
of a line and return the timestamp, else `none`. -/
def parseTs (ln : String) : Option Ts :=
  let l0 := ln.data.dropWhile isPySpace
  let hd := l0.takeWhile Char.isDigit
  let r1 := l0.dropWhile Char.isDigit
  if hd.isEmpty then none
  else
    match r1 with
    | ':' :: m1 :: m2 :: ':' :: s1 :: s2 :: r5 =>
        if m1.isDigit && m2.isDigit && s1.isDigit && s2.isDigit then
          let sec := charsVal hd * 3600 + charsVal [m1, m2] * 60 + charsVal [s1, s2]
          match r5 with
          | '>' :: _ => some ⟨sec, []⟩
          | '.' :: r6 =>
              let fd := r6.takeWhile Char.isDigit
              if fd.isEmpty then none
              else
                match r6.dropWhile Char.isDigit with
                | '>' :: _ => some ⟨sec, fd.map (fun c => c.toNat - 48)⟩
                | _ => none
          | _ => none
        else none
    | _ => none

/-- Python `str.strip()` on a character list. -/
def stripChars (l : List Char) : List Char :=
  ((l.dropWhile isPySpace).reverse.dropWhile isPySpace).reverse

/-- Header-line recognition in `_sort_scn_file`:
`ln.strip().startswith("0:") and (">HOLD" in ln or ">ASAS ON" in ln)`. -/
def classifyHeader (ln : String) : Bool :=
  isPrefixB "0:".data (stripChars ln.data)
    && (listContains ">HOLD".data ln.data || listContains ">ASAS ON".data ln.data)

/-- The single classification pass of `_sort_scn_file` over the
enumerated lines: header lines, stamped lines `(t, original index, line)`
and non-stamped lines `(original index, line)`, each in original order. -/
def splitScn : ℕ → List String → List String × List (Ts × ℕ × String) × List (ℕ × String)
  | _, [] => ([], [], [])
  | i, ln :: rest =>
      let r := splitScn (i + 1) rest
      if classifyHeader ln then (ln :: r.1, r.2.1, r.2.2)
      else
        match parseTs ln with
        | some t => (r.1, (t, i, ln) :: r.2.1, r.2.2)
        | none => (r.1, r.2.1, (i, ln) :: r.2.2)

/-- The sort key `(time, original index)` of `_sort_scn_file`, as a
boolean total preorder. -/
def lexLe (a b : Ts × ℕ × String) : Bool :=
  a.1.lt b.1 || (a.1.eqv b.1 && decide (a.2.1 ≤ b.2.1))

/-- `_sort_scn_file` on the list of lines of the file: header lines
first in original order, then stamped lines stably sorted by
`(time, original index)`, then all other lines in original order. -/
def sortScnFile (lines : List String) : List String :=
  let s := splitScn 0 lines
  s.1 ++ (sortLe lexLe s.2.1).map (fun x => x.2.2) ++ s.2.2.map (fun p => p.2)

/-- The timestamps of all non-header timestamped lines of a file, in
file order. -/
def nonHeaderTs (lines : List String) : List Ts :=
  (lines.filter (fun ln => !(classifyHeader ln))).filterMap parseTs

/-- Adjacent-pairs non-decreasing check on a timestamp list. -/
def chainLeB : List Ts → Bool
  | [] => true
  | [_] => true
  | a :: b :: rest => a.le b && chainLeB (b :: rest)

/-- The chronological invariant claimed by the spec: the timestamped
lines of the file, excluding header lines, are non-decreasing in
timestamp value. -/
def chronOk (lines : List String) : Prop :=
  chainLeB (nonHeaderTs lines) = true

instance (lines : List String) : Decidable (chronOk lines) :=
  inferInstanceAs (Decidable (chainLeB (nonHeaderTs lines) = true))

/-- Split a trailing digit run off an identifier: the regex
`^(.*?)(\d+)$` of `_next_unique_acid` (non-greedy prefix, so the digit
group is the maximal trailing digit run). -/
def splitTrailing (s : String) : Option (String × String) :=
  let rev := s.data.reverse
  let ds := rev.takeWhile Char.isDigit
  if ds.isEmpty then none
  else some (⟨(rev.dropWhile Char.isDigit).reverse⟩, ⟨ds.reverse⟩)

/-- Candidate identifier in the digit-increment branch:
`f"{root}{str(n).zfill(width)}"`. -/
def candDigits (root : String) (width n : ℕ) : String := root ++ zfill width (natStr n)

/-- Candidate identifier in the underscore branch: `f"{base}_{n}"`. -/
def candUnderscore (base : String) (n : ℕ) : String := base ++ "_" ++ natStr n

/-- First `k` with `f k ∉ used`, searched over `0..used.card`: the
source's unbounded `while` loop always terminates within this bound
because the candidates are pairwise distinct (`firstFresh_spec`). -/
def firstFresh (f : ℕ → String) (used : Finset String) : ℕ :=
  ((List.range (used.card + 1)).find? (fun k => !(decide (f k ∈ used)))).getD 0

/-- `_next_unique_acid`: return `base` if unused; else if `base` ends in
digits, increment the numeric suffix preserving its zero-padded width
until unique; else append `_2`, `_3`, … until unique. -/
def nextUniqueAcid (base : String) (used : Finset String) : String :=
  if base ∉ used then base
  else
    match splitTrailing base with
    | some (root, num) =>
        let width := num.data.length
        let n0 := charsVal num.data
        candDigits root width (n0 + 1 + firstFresh (fun k => candDigits root width (n0 + 1 + k)) used)
    | none =>
        candUnderscore base (2 + firstFresh (fun k => candUnderscore base (2 + k)) used)

/-- The collision-avoiding renaming loop of `_write_rl_scn`: assign each
aircraft of the batch its output identifier, accumulating both the used
set and the values assigned so far. -/
def assignAcids : List String → Finset String → List String → List (String × String)
  | [], _, _ => []
  | acid :: rest, used, vals =>
      let newAcid :=
        if acid ∈ used ∨ acid ∈ vals then nextUniqueAcid acid (used ∪ vals.toFinset) else acid
      (acid, newAcid) :: assignAcids rest (insert newAcid used) (vals ++ [newAcid])

/-- Try to match `\s*CRE\s+([A-Za-z0-9_-]+)\s*,` at a position just past
a `>`; on success return the captured identifier and the number of
characters consumed. -/
def tryCre (l : List Char) : Option (String × ℕ) :=
  let ws1 := l.takeWhile isPySpace
  let r1 := l.dropWhile isPySpace
  match r1 with
  | 'C' :: 'R' :: 'E' :: r2 =>
      let ws2 := r2.takeWhile isPySpace
      let r3 := r2.dropWhile isPySpace
      if ws2.isEmpty then none
      else
        let ident := r3.takeWhile isAcidChar
        let r4 := r3.dropWhile isAcidChar
        if ident.isEmpty then none
        else
          let ws3 := r4.takeWhile isPySpace
          let r5 := r4.dropWhile isPySpace
          match r5 with
          | ',' :: _ => some (⟨ident⟩, ws1.length + 3 + ws2.length + ident.length + ws3.length + 1)
          | _ => none
  | _ => none

/-- Scan a text for all matches of `>\s*CRE\s+([A-Za-z0-9_-]+)\s*,`
(`re.finditer` in `_scan_existing_acids`/`_scan_max_sc_index`), with fuel
for structural recursion (each step consumes at least one character). -/
def creScanF : ℕ → List Char → List String
  | 0, _ => []
  | _ + 1, [] => []
  | fuel + 1, c :: rest =>
      if c = '>' then
        match tryCre rest with
        | some (acid, n) => acid :: creScanF fuel (rest.drop n)
        | none => creScanF fuel rest
      else creScanF fuel rest

/-- The full text of a scenario file (the `f.read()` of the scanners). -/
def fileText (lines : List String) : String := String.join lines

/-- All identifiers of `CRE` lines of a file, in order and with
multiplicity. -/
def creScanList (lines : List String) : List String :=
  creScanF (fileText lines).data.length (fileText lines).data

/-- `_scan_existing_acids`: the set of identifiers already present in
the file's creation lines. -/
def scanExistingAcids (lines : List String) : Finset String := (creScanList lines).toFinset

/-- Full-match `SC(\d+)` on an identifier, returning the index. -/
def scIndex (acid : String) : Option ℕ :=
  match acid.data with
  | 'S' :: 'C' :: rest =>
      if rest.isEmpty then none
      else if rest.all Char.isDigit then some (charsVal rest) else none
  | _ => none

/-- `_scan_max_sc_index`: highest `SC<number>` among the file's `CRE`
identifiers, `0` if none. -/
def scanMaxSc (lines : List String) : ℕ :=
  (creScanList lines).foldl
    (fun m a => match scIndex a with | some n => max m n | none => m) 0

/-- Encounter topology (validated to one of these three by
`SATG_GC_CRE` before `_write_gc_scn` is reached). -/
inductive GcType
  | headon
  | cross
  | overtake
deriving DecidableEq

/-- Altitude mode (validated to one of these two by `SATG_GC_CRE`). -/
inductive AltMode
  | level
  | altcross
deriving DecidableEq

/-- The overtake speed correction of `_write_gc_scn`: if `cas2 ≤ cas1`,
sort ascending and bump the faster by `max(5, 0.05 * faster)`. -/
def overtakeCas (cas1 cas2 : ℚ) : ℚ × ℚ :=
  if cas2 ≤ cas1 then (min cas1 cas2, max cas1 cas2 + max 5 (0.05 * max cas1 cas2))
  else (cas1, cas2)

/-- The equal-level nudge of the altitude-crossing branch: a sampled
level equal to the target is moved by 10 levels (up for aircraft 1, down
for aircraft 2). -/
def nudgeLevels (fl1 fl2 flc : ℤ) : ℤ × ℤ :=
  (if fl1 = flc then fl1 + 10 else fl1, if fl2 = flc then fl2 - 10 else fl2)

/-- Two levels straddle the target: one strictly above, the other
strictly below. -/
def straddles (a b flc : ℤ) : Prop := (a > flc ∧ b < flc) ∨ (b > flc ∧ a < flc)

instance (a b flc : ℤ) : Decidable (straddles a b flc) :=
  inferInstanceAs (Decidable ((a > flc ∧ b < flc) ∨ (b > flc ∧ a < flc)))

/-- The altitude-crossing level computation of `_write_gc_scn` (lines
562–567): nudge equal levels, then if the pair still fails to straddle
the target, force aircraft 1 to `flc + 10` when it is not above and
aircraft 2 to `flc - 10` when it is not below. -/
def altcrossLevels (fl1 fl2 flc : ℤ) : ℤ × ℤ :=
  let n := nudgeLevels fl1 fl2 flc
  if ¬ straddles n.1 n.2 flc then
    (if n.1 ≤ flc then flc + 10 else n.1, if n.2 ≥ flc then flc - 10 else n.2)
  else n

/-- The claim text of C4, modelled from the spec's words: when the
nudged levels fail to straddle the target, "the lower is pushed below
and the higher pushed above" — the lower of the two sampled levels ends
strictly below the target and the higher strictly above it. -/
def c4LowerBelowHigherAbove (fl1 fl2 flc : ℤ) : Prop :=
  ¬ straddles (nudgeLevels fl1 fl2 flc).1 (nudgeLevels fl1 fl2 flc).2 flc →
    ((if fl1 ≤ fl2 then (altcrossLevels fl1 fl2 flc).1 else (altcrossLevels fl1 fl2 flc).2) < flc ∧
     flc < (if fl1 ≤ fl2 then (altcrossLevels fl1 fl2 flc).2 else (altcrossLevels fl1 fl2 flc).1))

instance (fl1 fl2 flc : ℤ) : Decidable (c4LowerBelowHigherAbove fl1 fl2 flc) :=
  inferInstanceAs (Decidable
    (¬ straddles (nudgeLevels fl1 fl2 flc).1 (nudgeLevels fl1 fl2 flc).2 flc →
      ((if fl1 ≤ fl2 then (altcrossLevels fl1 fl2 flc).1 else (altcrossLevels fl1 fl2 flc).2) < flc ∧
       flc < (if fl1 ≤ fl2 then (altcrossLevels fl1 fl2 flc).2 else (altcrossLevels fl1 fl2 flc).1))))

/-- The numeric state computed by `_write_gc_scn` (lines 526–571) from
the sampled values, before rendering; `destFn` abstracts the
great-circle destination `_dest_nm`. -/
structure GcCalc where
  cas1 : ℚ
  cas2 : ℚ
  brg2 : ℚ
  d1 : ℚ
  d2 : ℚ
  pos1 : ℚ × ℚ
  pos2 : ℚ × ℚ
  fl1Start : ℤ
  fl2Start : ℤ
  flCpa1 : ℤ
  flCpa2 : ℤ
  hdg1 : ℤ
  hdg2 : ℤ
deriving DecidableEq

/-- The deterministic core of `_write_gc_scn` given the sampled values
`cas1s, cas2s, fl1s, fl2s, brg1, angleS` (already reduced mod 360 for
`brg1`, as done by `_gc_sample`). -/
def gcCompute (destFn : ℚ → ℚ → ℚ → ℚ → ℚ × ℚ) (typ : GcType) (am : AltMode)
    (cpaLat cpaLon tcpa : ℚ) (flCpa : Option ℤ) (angleIn : Option ℚ)
    (cas1s cas2s : ℚ) (fl1s fl2s : ℤ) (brg1 angleS : ℚ) : GcCalc :=
  let angle := match angleIn, typ with
    | some a, GcType.cross => a
    | _, _ => angleS
  let cas := if typ = GcType.overtake then overtakeCas cas1s cas2s else (cas1s, cas2s)
  let brg2 := match typ with
    | GcType.headon => qmod (brg1 + 180) 360
    | GcType.cross => qmod (brg1 + angle) 360
    | GcType.overtake => brg1
  let d1 := cas.1 / 3600 * tcpa
  let d2 := cas.2 / 3600 * tcpa
  let pos1 := destFn cpaLat cpaLon (brg1 + 180) d1
  let pos2 := destFn cpaLat cpaLon (brg2 + 180) d2
  let flc : ℤ := match flCpa with
    | some v => v
    | none => pyRound (((fl1s : ℚ) + (fl2s : ℚ)) / 2)
  let levels : ℤ × ℤ := match am with
    | AltMode.level => (flc, flc)
    | AltMode.altcross => altcrossLevels fl1s fl2s flc
  { cas1 := cas.1, cas2 := cas.2, brg2 := brg2, d1 := d1, d2 := d2,
    pos1 := pos1, pos2 := pos2,
    fl1Start := levels.1, fl2Start := levels.2, flCpa1 := flc, flCpa2 := flc,
    hdg1 := pyRound brg1 % 360, hdg2 := pyRound brg2 % 360 }

/-- The encounter state of the C8 scenario: head-on topology, CPA at
`(52, 4)`, time-to-CPA 120 s, sampled `airspeed1 = 250` kt and
`bearing1 = 90` degrees (the remaining samples left free). -/
def c8Calc (destFn : ℚ → ℚ → ℚ → ℚ → ℚ × ℚ) (am : AltMode) (flCpa : Option ℤ)
    (angleIn : Option ℚ) (cas2s : ℚ) (fl1s fl2s : ℤ) (angleS : ℚ) : GcCalc :=
  gcCompute destFn GcType.headon am 52 4 120 flCpa angleIn 250 cas2s fl1s fl2s 90 angleS

/-- `_fmt_alt_token`. -/
def altTok (fl : ℤ) : String := if fl ≤ 0 then "0" else "FL" ++ intStr fl

/-- `_stamp(timedelta(0))`. -/
def stampZero : String := "0:00:00.00>"

/-- The first header line. -/
def holdLine : String := "0:00:00.00>HOLD\n"

/-- The second header line. -/
def asasLine : String := "0:00:00.00>ASAS ON\n"

/-- The eight lines written by `_write_gc_scn` for one encounter. -/
def gcLines (g : GcCalc) (acid1 acid2 ac1 ac2 : String) (cpaLat cpaLon : ℚ) : List String :=
  [stampZero ++ "CRE " ++ acid1 ++ "," ++ ac1 ++ "," ++ fmtF g.pos1.1 6 ++ "," ++ fmtF g.pos1.2 6
     ++ "," ++ zfill 3 (intStr g.hdg1) ++ "," ++ intStr (g.fl1Start * 100) ++ "," ++ fmtF g.cas1 1 ++ "\n",
   stampZero ++ "ADDWPT " ++ acid1 ++ " " ++ fmtF cpaLat 6 ++ "," ++ fmtF cpaLon 6 ++ ","
     ++ altTok g.flCpa1 ++ "," ++ fmtF g.cas1 1 ++ "\n",
   stampZero ++ "LNAV " ++ acid1 ++ " ON\n",
   stampZero ++ "VNAV " ++ acid1 ++ " ON\n",
   stampZero ++ "CRE " ++ acid2 ++ "," ++ ac2 ++ "," ++ fmtF g.pos2.1 6 ++ "," ++ fmtF g.pos2.2 6
     ++ "," ++ zfill 3 (intStr g.hdg2) ++ "," ++ intStr (g.fl2Start * 100) ++ "," ++ fmtF g.cas2 1 ++ "\n",
   stampZero ++ "ADDWPT " ++ acid2 ++ " " ++ fmtF cpaLat 6 ++ "," ++ fmtF cpaLon 6 ++ ","
     ++ altTok g.flCpa2 ++ "," ++ fmtF g.cas2 1 ++ "\n",
   stampZero ++ "LNAV " ++ acid2 ++ " ON\n",
   stampZero ++ "VNAV " ++ acid2 ++ " ON\n"]

/-- The file content produced by `_write_gc_scn`: keep the prior lines
when appending, else start with the one-time header; then the encounter
lines. No re-sort is performed by this writer. -/
def gcWrite (destFn : ℚ → ℚ → ℚ → ℚ → ℚ × ℚ) (append : Bool) (prior : List String)
    (typ : GcType) (am : AltMode) (cpaLat cpaLon tcpa : ℚ) (flCpa : Option ℤ)
    (angleIn : Option ℚ) (acid1 acid2 ac1 ac2 : String)
    (cas1s cas2s : ℚ) (fl1s fl2s : ℤ) (brg1 angleS : ℚ) : List String :=
  let g := gcCompute destFn typ am cpaLat cpaLon tcpa flCpa angleIn cas1s cas2s fl1s fl2s brg1 angleS
  (if append then prior else [holdLine, asasLine]) ++ gcLines g acid1 acid2 ac1 ac2 cpaLat cpaLon

/-- The file-content effect of `SATG_GC_CRE` (overwrite handling plus
the auto-bump of the default `SC1`/`SC2` pair when appending), given the
sampled values. -/
def satgGcCre (destFn : ℚ → ℚ → ℚ → ℚ → ℚ × ℚ) (fileExists : Bool) (prior : List String)
    (overwrite : Bool) (typ : GcType) (am : AltMode) (cpaLat cpaLon tcpa : ℚ)
    (flCpa : Option ℤ) (angleIn : Option ℚ) (acid1 acid2 ac1 ac2 : String)
    (cas1s cas2s : ℚ) (fl1s fl2s : ℤ) (brg1 angleS : ℚ) : List String :=
  let append := if overwrite then false else fileExists
  let bump := append && decide (acid1 = "SC1") && decide (acid2 = "SC2")
  let a1 := if bump then "SC" ++ natStr (scanMaxSc prior + 1) else acid1
  let a2 := if bump then "SC" ++ natStr (scanMaxSc prior + 2) else acid2
  gcWrite destFn append prior typ am cpaLat cpaLon tcpa flCpa angleIn a1 a2 ac1 ac2
    cas1s cas2s fl1s fl2s brg1 angleS

/-- Flight metadata (`STATE.flights` values). -/
structure FlightMeta where
  acType : String
  adep : String
  ades : String
deriving DecidableEq

/-- A waypoint of `STATE.base_points` (fields post numeric coercion, as
built by `_build_base_points`; `hdg = none` models the NaN default). -/
structure Pt where
  seq : ℤ
  t : ℚ
  fl : ℤ
  lat : ℚ
  lon : ℚ
  gs : ℚ
  hdg : Option ℚ
deriving DecidableEq

/-- A CSV row, carrying every field either reader may access (a dict
row); numeric fields are modelled post `_to_int`/`_to_float` coercion,
whose row-level defaulting no claim here depends on. -/
structure CsvRow where
  ectrlId : String
  acType : String
  adep : String
  ades : String
  seq : ℤ
  t : ℚ
  fl : ℤ
  lat : ℚ
  lon : ℚ
  gs : ℚ
  hdg : Option ℚ
deriving DecidableEq

/-- A CSV file: its header names and its rows. -/
structure CsvFile where
  headers : List String
  rows : List CsvRow
deriving DecidableEq

/-- `_EXPECT_FLIGHTS`. -/
def expectFlightsHeaders : List String := ["ECTRL ID", "ADEP", "ADES", "AC Type"]

/-- `_EXPECT_POINTS`. -/
def expectPointsHeaders : List String :=
  ["ECTRL ID", "Sequence Number", "Time Over", "Flight Level", "Latitude", "Longitude",
   "Delay Time Over", "Dev Latitude", "Dev Longitude", "Dev Flight Level",
   "ground_speed", "vertical_speed", "heading", "pitch"]

/-- The airspace-boundary header signature. -/
def firHeaders : List String :=
  ["Airspace ID", "Min Flight Level", "Max Flight Level", "Sequence Number", "Latitude", "Longitude"]

/-- `_read_csv_auto` header classification. -/
def fileKind (f : CsvFile) : String :=
  if expectFlightsHeaders.all (fun h => decide (h ∈ f.headers)) then "flights"
  else if expectPointsHeaders.all (fun h => decide (h ∈ f.headers)) then "points"
  else if firHeaders.all (fun h => decide (h ∈ f.headers)) then "FIR"
  else ""

/-- Append a point under its aircraft key, preserving dict insertion
order (`pts.setdefault(acid, []).append(...)`). -/
def addPointRow (acc : List (String × List Pt)) (acid : String) (p : Pt) : List (String × List Pt) :=
  match acc with
  | [] => [(acid, [p])]
  | (a, ps) :: rest =>
      if a = acid then (a, ps ++ [p]) :: rest else (a, ps) :: addPointRow rest acid p

/-- The point record built from a row by `_build_base_points` (flight
level clamped at 0). -/
def rowPt (r : CsvRow) : Pt :=
  { seq := r.seq, t := r.t, fl := max 0 r.fl, lat := r.lat, lon := r.lon, gs := r.gs, hdg := r.hdg }

/-- `_build_base_points`: group rows by aircraft, then stably sort each
aircraft's points by sequence number. -/
def buildBasePoints (rows : List CsvRow) : List (String × List Pt) :=
  let grouped := rows.foldl (fun acc r => addPointRow acc r.ectrlId (rowPt r)) []
  grouped.map (fun p => (p.1, sortLe (fun x y => decide (x.seq ≤ y.seq)) p.2))

/-- Dict update preserving first-insertion key order (`fl[acid] = ...`). -/
def upsertMeta (acc : List (String × FlightMeta)) (acid : String) (m : FlightMeta) :
    List (String × FlightMeta) :=
  match acc with
  | [] => [(acid, m)]
  | (a, v) :: rest =>
      if a = acid then (a, m) :: rest else (a, v) :: upsertMeta rest acid m

/-- The flights side table built by `_load_files`. -/
def buildFlights (rows : List CsvRow) : List (String × FlightMeta) :=
  rows.foldl
    (fun acc r => upsertMeta acc r.ectrlId { acType := r.acType, adep := r.adep, ades := r.ades }) []

/-- The six sampling ranges of `STATE.gc_ranges`. -/
structure GcRanges where
  cas1 : ℚ × ℚ
  cas2 : ℚ × ℚ
  fl1 : ℚ × ℚ
  fl2 : ℚ × ℚ
  brg1 : ℚ × ℚ
  angle : ℚ × ℚ
deriving DecidableEq

/-- The defaults installed by `_SATGState.__init__`. -/
def defaultGcRanges : GcRanges :=
  { cas1 := (220, 280), cas2 := (220, 280), fl1 := (290, 370), fl2 := (290, 370),
    brg1 := (0, 359), angle := (90, 90) }

/-- The mutable session state `_SATGState` (directory fields, which are
filesystem glue, omitted). -/
structure SState where
  flights : List (String × FlightMeta)
  basePoints : List (String × List Pt)
  loadedOk : Bool
  jitterOn : Bool
  jSeed : Option ℤ
  jitterPct : ℚ
  jitterSubset : Option (Finset String)
  dtMax : ℚ
  dlatMax : ℚ
  dlonMax : ℚ
  dflMax : ℤ
  jitterDist : String
  nsig : ℚ
  autodel : Bool
  gcHsepNm : ℚ
  gcVsepFt : ℤ
  gcRanges : GcRanges
  gcLastAcids : List String
deriving DecidableEq

/-- `_SATGState.__init__`. -/
def initState : SState :=
  { flights := [], basePoints := [], loadedOk := false,
    jitterOn := false, jSeed := none, jitterPct := 100, jitterSubset := none,
    dtMax := 0, dlatMax := 0, dlonMax := 0, dflMax := 0,
    jitterDist := "normal", nsig := 0, autodel := true,
    gcHsepNm := 5, gcVsepFt := 1000, gcRanges := defaultGcRanges, gcLastAcids := [] }

/-- `_load_files` on the discovered, classified files: fail (leaving the
state untouched) when no file was found or when the files do not contain
both required kinds; otherwise rebuild the track store. -/
def loadFiles (files : List CsvFile) (st : SState) : Bool × String × SState :=
  if files.isEmpty then (false, "No CSV files found.", st)
  else
    let flightsRows := ((files.filter (fun f => decide (fileKind f = "flights"))).map CsvFile.rows).flatten
    let pointsRows := ((files.filter (fun f => decide (fileKind f = "points"))).map CsvFile.rows).flatten
    let foundFlights := files.any (fun f => decide (fileKind f = "flights"))
    let foundPoints := files.any (fun f => decide (fileKind f = "points"))
    if foundFlights && foundPoints then
      let bp := buildBasePoints pointsRows
      let fl := buildFlights flightsRows
      (true,
       "Loaded " ++ natStr fl.length ++ " flights, "
         ++ natStr (bp.foldl (fun acc p => acc + p.2.length) 0) ++ " points.",
       { st with basePoints := bp, flights := fl, loadedOk := true })
    else (false, "Missing required files: need both flights and flights_points (by headers).", st)

/-- `max(0.0, min(100.0, pct))`. -/
def clampPct (p : ℚ) : ℚ := max 0 (min 100 p)

/-- `int(round(pct / 100 * N))`. -/
def jitterKOf (pct : ℚ) (n : ℕ) : ℤ := pyRound (pct / 100 * n)

/-- `set(rng_sel.sample(acids, k)) if k > 0 else set()`; `sample` models
`random.Random(seed).sample` as a deterministic function of the seed. -/
def subsetSample (sample : Option ℤ → List String → ℕ → Finset String)
    (seed : Option ℤ) (acids : List String) (k : ℤ) : Finset String :=
  if 0 < k then sample seed acids k.toNat else ∅

/-- The state transition of `SATG_RL_JITTER` (`on`/`off` plus optional
parameter updates; on `on` with data loaded, the jitter subset is
recomputed from the current track keys, else it is cleared). -/
def satgRlJitter (sample : Option ℤ → List String → ℕ → Finset String) (st : SState)
    (mode : String) (dist : Option String) (seed : Option ℤ)
    (dt dlat dlon : Option ℚ) (dfl : Option ℤ) (nsig pct : Option ℚ) : Bool × SState :=
  let m : String := ⟨(stripChars mode.data).map Char.toLower⟩
  if m ≠ "on" ∧ m ≠ "off" then (false, st)
  else if m = "off" then
    let st1 := { st with jitterOn := false }
    let st2 := match seed with | some s => { st1 with jSeed := some s } | none => st1
    (true, st2)
  else
    let st1 := { st with jitterOn := true }
    let distBad := match dist with
      | some d =>
          let dl : String := ⟨(stripChars d.data).map Char.toLower⟩
          decide (dl ≠ "uniform" ∧ dl ≠ "normal")
      | none => false
    if distBad then (false, st1)
    else
      let st2 := match dist with
        | some d => { st1 with jitterDist := ⟨(stripChars d.data).map Char.toLower⟩ }
        | none => st1
      let st3 := match seed with | some s => { st2 with jSeed := some s } | none => st2
      let st4 := match dt with | some v => { st3 with dtMax := v } | none => st3
      let st5 := match dlat with | some v => { st4 with dlatMax := v } | none => st4
      let st6 := match dlon with | some v => { st5 with dlonMax := v } | none => st5
      let st7 := match dfl with | some v => { st6 with dflMax := v } | none => st6
      let st8 := match nsig with | some v => { st7 with nsig := v } | none => st7
      let st9 := match pct with | some v => { st8 with jitterPct := clampPct v } | none => st8
      let stA :=
        if st9.basePoints.isEmpty then { st9 with jitterSubset := none }
        else
          let acids := st9.basePoints.map Prod.fst
          let sub := subsetSample sample st9.jSeed acids (jitterKOf st9.jitterPct acids.length)
          { st9 with jitterSubset := some sub }
      (true, stA)

/-- The on-the-fly subset computation at the top of
`_get_points_for_run` (lines 247–251): compute a subset only when jitter
is on, none is cached and coverage is below 100. -/
def runSubset (sample : Option ℤ → List String → ℕ → Finset String) (st : SState) :
    Option (Finset String) :=
  if st.jitterOn ∧ st.jitterSubset = none ∧ st.jitterPct < 100 then
    let acids := st.basePoints.map Prod.fst
    some (subsetSample sample st.jSeed acids (jitterKOf st.jitterPct acids.length))
  else st.jitterSubset

/-- `_should_jitter` (lines 253–267); `fallback` models the dead
hash-based branch reached only when no subset exists at 0 < pct < 100. -/
def shouldJitter (fallback : Option ℤ → String → Bool) (st : SState)
    (subset : Option (Finset String)) (acid : String) : Bool :=
  if ¬ st.jitterOn then false
  else if st.jitterPct ≤ 0 then false
  else if 100 ≤ st.jitterPct then true
  else
    match subset with
    | some s => decide (acid ∈ s)
    | none => fallback st.jSeed acid

/-- The aircraft actually perturbed by one `_get_points_for_run` call:
the track keys passing `_should_jitter` (empty when no data is loaded or
jitter is off). -/
def jitteredAcids (sample : Option ℤ → List String → ℕ → Finset String)
    (fallback : Option ℤ → String → Bool) (st : SState) : List String :=
  if st.basePoints.isEmpty then []
  else if ¬ st.jitterOn then []
  else (st.basePoints.map Prod.fst).filter (shouldJitter fallback st (runSubset sample st))

/-- The arguments of `SATG_RC_CIRCLE` after CLI parsing; `ok = false`
models a parse failure of the required numeric arguments. -/
structure RcArgs where
  ok : Bool
  n : ℤ
  radius : ℚ
  typesRaw : List String
  altmode : String
  overwrite : String
  angleGiven : Bool
  casRng : ℚ × ℚ
  flRng : ℚ × ℚ
  angleRng : ℚ × ℚ

/-- The `finally` block of `SATG_RC_CIRCLE`: whatever the batch loop
returned (or raised, modelled by `some` error), the saved ranges are
written back. -/
def finallyRestore (old : GcRanges) (r : Option Unit × SState) : Bool × SState :=
  match r with
  | (none, st2) => (true, { st2 with gcRanges := old })
  | (some _, st2) => (false, { st2 with gcRanges := old })

/-- `SATG_RC_CIRCLE`'s effect on the session state: validation errors
leave the state untouched; otherwise the sampling ranges are overridden,
the batch loop `body` runs (possibly raising, modelled by `some` error),
and the `finally` block restores the saved ranges in every case. -/
def rcCircle (args : RcArgs) (body : SState → Option Unit × SState) (st : SState) :
    Bool × SState :=
  if ¬ args.ok then (false, st)
  else if args.n ≤ 0 ∨ args.radius ≤ 0 then (false, st)
  else if args.typesRaw.isEmpty
      || args.typesRaw.any (fun t => !(decide (t ∈ (["headon", "cross", "overtake"] : List String)))) then
    (false, st)
  else if ¬ (args.altmode ∈ (["level", "altcross", "mix"] : List String)) then (false, st)
  else if ¬ (args.overwrite ∈ (["0", "1"] : List String)) then (false, st)
  else
    let old := st.gcRanges
    let st1 := { st with gcRanges :=
      { old with cas1 := args.casRng, cas2 := args.casRng, fl1 := args.flRng, fl2 := args.flRng,
                 angle := if args.angleGiven then args.angleRng else old.angle } }
    finallyRestore old (body st1)

/-- The identifier renaming performed by a replay write/append
(`_write_rl_scn` lines 417–426): on append, the used set starts from the
file's existing `CRE` identifiers. -/
def rlNameMap (append : Bool) (prior : List String) (acids : List String) :
    List (String × String) :=
  assignAcids acids (if append then scanExistingAcids prior else ∅) []

/-- Concrete stand-in for the great-circle destination (`geo.qdrpos` /
`_dest_nm`) used to close witnesses and counterexamples whose content
does not depend on the geometry; it satisfies the 360-degree periodicity
of the real destination function. -/
def destModel (lat lon _brg _dist : ℚ) : ℚ × ℚ := (lat, lon)

/-- A prior scenario file as written by a replay run: header plus one
creation line stamped at 10 s. -/
def priorRl : List String :=
  [holdLine, asasLine, "0:00:10.00>CRE AAA,A320,52.000000,4.000000,090,31000,250.0\n"]

/-- A prior scenario file whose creation lines already contain `AB3`. -/
def priorAb3 : List String :=
  [holdLine, asasLine, "0:00:00.00>CRE AB3,A320,52.000000,4.000000,090,31000,250.0\n"]

/-- A concrete model of `random.Random(seed).sample(acids, k)` for
witnesses: the first `k` keys. -/
def sampleTake (_seed : Option ℤ) (acids : List String) (k : ℕ) : Finset String :=
  (acids.take k).toFinset

/-- A concrete stand-in for the dead hash-based fallback branch. -/
def fallbackNone (_seed : Option ℤ) (_acid : String) : Bool := false

/-- A row with the given aircraft identifier (other fields fixed). -/
def mkRow (acid : String) : CsvRow :=
  { ectrlId := acid, acType := "A320", adep := "", ades := "",
    seq := 1, t := 0, fl := 300, lat := 52, lon := 4, gs := 0, hdg := none }

/-- A flights-kind CSV file for the given identifiers. -/
def flightsFile (acids : List String) : CsvFile :=
  { headers := expectFlightsHeaders, rows := acids.map mkRow }

/-- A points-kind CSV file for the given identifiers. -/
def pointsFile (acids : List String) : CsvFile :=
  { headers := expectPointsHeaders, rows := acids.map mkRow }

/-- A loaded session with three tracked aircraft, jitter on, seed 1 and
coverage 50%, with no cached subset. -/
def stW7 : SState :=
  { initState with
      basePoints := [("A", []), ("B", []), ("C", [])],
      jitterOn := true, jSeed := some 1, jitterPct := 50 }

/-- A session holding a cached jitter subset. -/
def stCache : SState := { initState with jitterSubset := some {"X"} }

/-- Session state after loading track set `{A1, A2}`. -/
def stLoadA : SState :=
  (loadFiles [flightsFile ["A1", "A2"], pointsFile ["A1", "A2"]] initState).2.2

/-- Session state after additionally configuring jitter on with seed 1
and coverage 50 (the jitter subset is computed here). -/
def stJit : SState :=
  (satgRlJitter sampleTake stLoadA "on" none (some 1) none none none none none (some 50)).2

/-- Session state after then loading the different track set `{B1, B2}`. -/
def stLoadB : SState :=
  (loadFiles [flightsFile ["B1", "B2"], pointsFile ["B1", "B2"]] stJit).2.2

theorem valLE_digitsLE (fuel : ℕ) : ∀ n : ℕ, n ≤ fuel → valLE (digitsLE fuel n) = n := by
  induction fuel with
  | zero => intro n hn; interval_cases n; rfl
  | succ fuel ih =>
      intro n hn
      by_cases h0 : n = 0
      · subst h0; rfl
      · have hdiv : n / 10 ≤ fuel := by
          have : n / 10 < n := Nat.div_lt_self (Nat.pos_of_ne_zero h0) (by norm_num)
          omega
        simp only [digitsLE, h0, if_false, valLE, ih _ hdiv]
        omega

theorem digitsLE_lt_ten (fuel : ℕ) : ∀ n d : ℕ, d ∈ digitsLE fuel n → d < 10 := by
  induction fuel with
  | zero => intro n d hd; simp [digitsLE] at hd
  | succ fuel ih =>
      intro n d hd
      by_cases h0 : n = 0
      · subst h0; simp [digitsLE] at hd
      · simp only [digitsLE, h0, if_false, List.mem_cons] at hd
        rcases hd with h | h
        · subst h; exact Nat.mod_lt _ (by norm_num)
        · exact ih _ _ h

theorem digitChar_toNat (d : ℕ) (hd : d < 10) : (digitChar d).toNat = 48 + d := by
  interval_cases d <;> rfl

theorem valLE_append_zeros (l : List ℕ) (k : ℕ) :
    valLE (l ++ List.replicate k 0) = valLE l := by
  induction l with
  | nil =>
      simp only [List.nil_append]
      induction k with
      | zero => rfl
      | succ k ih => simpa [List.replicate_succ, valLE] using ih
  | cons d ds ih => simp [valLE, ih]

theorem charsVal_append_left_zeros (z : ℕ) (l : List Char) :
    charsVal (List.replicate z '0' ++ l) = charsVal l := by
  unfold charsVal
  rw [List.map_append, List.reverse_append]
  have hz : ((List.replicate z '0').map (fun c => c.toNat - 48)) = List.replicate z 0 := by
    rw [List.map_replicate]; rfl
  rw [hz, List.reverse_replicate, valLE_append_zeros]

theorem charsVal_natStr (n : ℕ) : charsVal (natStr n).data = n := by
  by_cases h0 : n = 0
  · subst h0; rfl
  · unfold natStr
    simp only [h0, if_false]
    show charsVal (((digitsLE n n).reverse).map digitChar) = n
    unfold charsVal
    rw [List.map_map, List.map_reverse, List.reverse_reverse]
    have hmap : ((digitsLE n n).map ((fun c => c.toNat - 48) ∘ digitChar)) = digitsLE n n := by
      conv_rhs => rw [← List.map_id (digitsLE n n)]
      apply List.map_congr_left
      intro d hd
      have := digitsLE_lt_ten n n d hd
      simp [Function.comp, digitChar_toNat d this]
    rw [hmap, valLE_digitsLE n n le_rfl]

theorem charsVal_zfill_natStr (w n : ℕ) : charsVal (zfill w (natStr n)).data = n := by
  show charsVal (List.replicate _ '0' ++ (natStr n).data) = n
  rw [charsVal_append_left_zeros, charsVal_natStr]

theorem insertLe_perm {α : Type} (le : α → α → Bool) (a : α) (l : List α) :
    (insertLe le a l).Perm (a :: l) := by
  induction l with
  | nil => exact List.Perm.refl _
  | cons b l ih =>
      unfold insertLe
      by_cases h : le a b = true
      · simp [h]
      · simp only [h, if_false]
        exact ((ih.cons b).trans (List.Perm.swap a b l))

theorem sortLe_perm {α : Type} (le : α → α → Bool) (l : List α) :
    (sortLe le l).Perm l := by
  induction l with
  | nil => exact List.Perm.refl _
  | cons a l ih => exact (insertLe_perm le a (sortLe le l)).trans (ih.cons a)

theorem insertLe_pairwise {α : Type} (le : α → α → Bool)
    (htot : ∀ x y, le x y || le y x)
    (htrans : ∀ x y z, le x y = true → le y z = true → le x z = true)
    (a : α) (l : List α) (hl : l.Pairwise (fun x y => le x y = true)) :
    (insertLe le a l).Pairwise (fun x y => le x y = true) := by
  induction l with
  | nil => simp [insertLe]
  | cons b l ih =>
      rcases List.pairwise_cons.mp hl with ⟨hb, hl'⟩
      unfold insertLe
      by_cases h : le a b = true
      · simp only [h, if_true]
        refine List.pairwise_cons.mpr ⟨?_, hl⟩
        intro x hx
        rcases List.mem_cons.mp hx with rfl | hx
        · exact h
        · exact htrans a b x h (hb x hx)
      · simp only [h, if_false]
        refine List.pairwise_cons.mpr ⟨?_, ih hl'⟩
        intro x hx
        have hx' := (insertLe_perm le a l).mem_iff.mp hx
        rcases List.mem_cons.mp hx' with heq | hx'
        · subst heq
          rcases (Bool.or_eq_true _ _).mp (htot x b) with h1 | h1
          · exact absurd h1 h
          · exact h1
        · exact hb x hx'

theorem sortLe_pairwise {α : Type} (le : α → α → Bool)
    (htot : ∀ x y, le x y || le y x)
    (htrans : ∀ x y z, le x y = true → le y z = true → le x z = true)
    (l : List α) : (sortLe le l).Pairwise (fun x y => le x y = true) := by
  induction l with
  | nil => simp [sortLe]
  | cons a l ih => exact insertLe_pairwise le htot htrans a (sortLe le l) ih

theorem pyRound_intCast (m : ℤ) : pyRound (m : ℚ) = m := by
  unfold pyRound
  norm_num

theorem pyRound_bounds (q : ℚ) : ⌊q⌋ ≤ pyRound q ∧ pyRound q ≤ ⌊q⌋ + 1 := by
  unfold pyRound
  split
  · omega
  · split
    · omega
    · split <;> omega

theorem qmod_add_period (a b : ℚ) (hb : b ≠ 0) : qmod (a + b) b = qmod a b := by
  unfold qmod
  have h1 : (a + b) / b = a / b + 1 := by field_simp
  rw [h1, Int.floor_add_one]
  push_cast
  ring

theorem foldl_mulAdd_replicate_zero (k : ℕ) :
    ∀ a : ℕ, (List.replicate k 0).foldl (fun a d => 10 * a + d) a = a * 10 ^ k := by
  induction k with
  | zero => intro a; simp
  | succ k ih =>
      intro a
      rw [List.replicate_succ, List.foldl_cons, ih]
      ring

theorem fracValBE_padTo (L : ℕ) (f : List ℕ) :
    fracValBE (padTo L f) = fracValBE f * 10 ^ (L - f.length) := by
  unfold padTo fracValBE
  rw [List.foldl_append]
  exact foldl_mulAdd_replicate_zero (L - f.length) _

theorem Ts.scaled_cast (t : Ts) (L : ℕ) (hL : t.frac.length ≤ L) :
    ((t.scaled L : ℕ) : ℚ) = t.toQ * 10 ^ L := by
  obtain ⟨k, rfl⟩ : ∃ k, L = t.frac.length + k := ⟨L - t.frac.length, by omega⟩
  unfold Ts.scaled Ts.toQ
  rw [fracValBE_padTo]
  have h1 : t.frac.length + k - t.frac.length = k := by omega
  rw [h1]
  push_cast
  have h10 : ((10 : ℚ) ^ t.frac.length) ≠ 0 := pow_ne_zero _ (by norm_num)
  field_simp
  ring

theorem Ts.le_iff_toQ (a b : Ts) : a.le b = true ↔ a.toQ ≤ b.toQ := by
  unfold Ts.le
  rw [decide_eq_true_iff]
  rw [← Nat.cast_le (α := ℚ)]
  rw [Ts.scaled_cast a _ (le_max_left _ _), Ts.scaled_cast b _ (le_max_right _ _)]
  constructor
  · intro h
    have hpos : (0 : ℚ) < 10 ^ max a.frac.length b.frac.length := by positivity
    exact le_of_mul_le_mul_right h hpos
  · intro h
    have hpos : (0 : ℚ) ≤ 10 ^ max a.frac.length b.frac.length := by positivity
    exact mul_le_mul_of_nonneg_right h hpos

theorem Ts.lt_iff_toQ (a b : Ts) : a.lt b = true ↔ a.toQ < b.toQ := by
  unfold Ts.lt
  rw [decide_eq_true_iff]
  rw [← Nat.cast_lt (α := ℚ)]
  rw [Ts.scaled_cast a _ (le_max_left _ _), Ts.scaled_cast b _ (le_max_right _ _)]
  have hpos : (0 : ℚ) < 10 ^ max a.frac.length b.frac.length := by positivity
  constructor
  · intro h; exact lt_of_mul_lt_mul_right h hpos.le
  · intro h; exact mul_lt_mul_of_pos_right h hpos

theorem Ts.eqv_iff_toQ (a b : Ts) : a.eqv b = true ↔ a.toQ = b.toQ := by
  unfold Ts.eqv
  rw [decide_eq_true_iff]
  rw [← Nat.cast_inj (R := ℚ)]
  rw [Ts.scaled_cast a _ (le_max_left _ _), Ts.scaled_cast b _ (le_max_right _ _)]
  have hpos : ((10 : ℚ) ^ max a.frac.length b.frac.length) ≠ 0 := pow_ne_zero _ (by norm_num)
  constructor
  · intro h; exact mul_right_cancel₀ hpos h
  · intro h; rw [h]

theorem lexLe_iff (a b : Ts × ℕ × String) :
    lexLe a b = true ↔ (a.1.toQ < b.1.toQ ∨ (a.1.toQ = b.1.toQ ∧ a.2.1 ≤ b.2.1)) := by
  unfold lexLe
  rw [Bool.or_eq_true, Bool.and_eq_true, decide_eq_true_iff, Ts.lt_iff_toQ, Ts.eqv_iff_toQ]

theorem lexLe_total (a b : Ts × ℕ × String) : lexLe a b || lexLe b a := by
  rw [Bool.or_eq_true, lexLe_iff, lexLe_iff]
  rcases lt_trichotomy a.1.toQ b.1.toQ with h | h | h
  · exact Or.inl (Or.inl h)
  · rcases le_total a.2.1 b.2.1 with hi | hi
    · exact Or.inl (Or.inr ⟨h, hi⟩)
    · exact Or.inr (Or.inr ⟨h.symm, hi⟩)
  · exact Or.inr (Or.inl h)

theorem lexLe_trans (a b c : Ts × ℕ × String)
    (h1 : lexLe a b = true) (h2 : lexLe b c = true) : lexLe a c = true := by
  rw [lexLe_iff] at h1 h2 ⊢
  rcases h1 with h1 | ⟨h1, h1'⟩
  · rcases h2 with h2 | ⟨h2, _⟩
    · exact Or.inl (h1.trans h2)
    · exact Or.inl (h2 ▸ h1)
  · rcases h2 with h2 | ⟨h2, h2'⟩
    · exact Or.inl (h1 ▸ h2)
    · exact Or.inr ⟨h1.trans h2, h1'.trans h2'⟩

theorem splitScn_stamped_mem (l : List String) :
    ∀ i : ℕ, ∀ x ∈ (splitScn i l).2.1,
      parseTs x.2.2 = some x.1 ∧ classifyHeader x.2.2 = false ∧ i ≤ x.2.1 := by
  induction l with
  | nil => intro i x hx; simp [splitScn] at hx
  | cons ln rest ih =>
      intro i x hx
      unfold splitScn at hx
      cases hc : classifyHeader ln with
      | true =>
          simp only [hc, if_true] at hx
          have := ih (i + 1) x hx
          exact ⟨this.1, this.2.1, by omega⟩
      | false =>
          simp only [hc, Bool.false_eq_true, if_false] at hx
          cases hp : parseTs ln with
          | none =>
              simp only [hp] at hx
              have := ih (i + 1) x hx
              exact ⟨this.1, this.2.1, by omega⟩
          | some t =>
              simp only [hp, List.mem_cons] at hx
              rcases hx with rfl | hx
              · exact ⟨hp, hc, le_rfl⟩
              · have := ih (i + 1) x hx
                exact ⟨this.1, this.2.1, by omega⟩

theorem splitScn_stamped_pairwise (l : List String) :
    ∀ i : ℕ, (splitScn i l).2.1.Pairwise (fun x y => x.2.1 < y.2.1) := by
  induction l with
  | nil => intro i; simp [splitScn]
  | cons ln rest ih =>
      intro i
      unfold splitScn
      cases hc : classifyHeader ln with
      | true => simpa [hc] using ih (i + 1)
      | false =>
          simp only [hc, Bool.false_eq_true, if_false]
          cases hp : parseTs ln with
          | none => simpa using ih (i + 1)
          | some t =>
              refine List.pairwise_cons.mpr ⟨?_, ih (i + 1)⟩
              intro y hy
              have := (splitScn_stamped_mem rest (i + 1) y hy).2.2
              show i < y.2.1
              omega

theorem splitScn_nonstamped_mem (l : List String) :
    ∀ i : ℕ, ∀ x ∈ (splitScn i l).2.2,
      parseTs x.2 = none ∧ classifyHeader x.2 = false := by
  induction l with
  | nil => intro i x hx; simp [splitScn] at hx
  | cons ln rest ih =>
      intro i x hx
      unfold splitScn at hx
      cases hc : classifyHeader ln with
      | true =>
          simp only [hc, if_true] at hx
          exact ih (i + 1) x hx
      | false =>
          simp only [hc, Bool.false_eq_true, if_false] at hx
          cases hp : parseTs ln with
          | none =>
              simp only [hp, List.mem_cons] at hx
              rcases hx with rfl | hx
              · exact ⟨hp, hc⟩
              · exact ih (i + 1) x hx
          | some t =>
              simp only [hp] at hx
              exact ih (i + 1) x hx

theorem splitScn_header_mem (l : List String) :
    ∀ i : ℕ, ∀ x ∈ (splitScn i l).1, classifyHeader x = true := by
  induction l with
  | nil => intro i x hx; simp [splitScn] at hx
  | cons ln rest ih =>
      intro i x hx
      unfold splitScn at hx
      cases hc : classifyHeader ln with
      | true =>
          simp only [hc, if_true, List.mem_cons] at hx
          rcases hx with rfl | hx
          · exact hc
          · exact ih (i + 1) x hx
      | false =>
          simp only [hc, Bool.false_eq_true, if_false] at hx
          cases hp : parseTs ln with
          | none => simp only [hp] at hx; exact ih (i + 1) x hx
          | some t => simp only [hp] at hx; exact ih (i + 1) x hx

theorem splitScn_perm (l : List String) :
    ∀ i : ℕ,
      ((splitScn i l).1 ++ ((splitScn i l).2.1.map fun x => x.2.2)
        ++ ((splitScn i l).2.2.map Prod.snd)).Perm l := by
  induction l with
  | nil => intro i; simp [splitScn]
  | cons ln rest ih =>
      intro i
      unfold splitScn
      cases hc : classifyHeader ln with
      | true =>
          simp only [hc, if_true, List.cons_append]
          exact (ih (i + 1)).cons ln
      | false =>
          simp only [hc, Bool.false_eq_true, if_false]
          cases hp : parseTs ln with
          | some t =>
              simp only [List.map_cons]
              refine List.Perm.trans ?_ ((ih (i + 1)).cons ln)
              have h1 : (splitScn (i + 1) rest).1
                    ++ (ln :: ((splitScn (i + 1) rest).2.1.map fun x => x.2.2))
                    ++ ((splitScn (i + 1) rest).2.2.map Prod.snd)
                  = (splitScn (i + 1) rest).1
                    ++ ln :: (((splitScn (i + 1) rest).2.1.map fun x => x.2.2)
                      ++ ((splitScn (i + 1) rest).2.2.map Prod.snd)) := by
                simp [List.append_assoc]
              rw [h1]
              refine List.perm_middle.trans ?_
              apply List.Perm.cons
              rw [← List.append_assoc]
          | none =>
              simp only [List.map_cons]
              refine List.Perm.trans ?_ ((ih (i + 1)).cons ln)
              refine List.perm_middle.trans ?_
              apply List.Perm.cons
              exact List.Perm.refl _

theorem filterMap_congr_some {α β : Type} (f : α → Option β) (g : α → β) :
    ∀ l : List α, (∀ x ∈ l, f x = some (g x)) → l.filterMap f = l.map g := by
  intro l
  induction l with
  | nil => intro _; rfl
  | cons a l ih =>
      intro h
      rw [List.filterMap_cons, h a (List.mem_cons_self a l), List.map_cons,
        ih (fun x hx => h x (List.mem_cons_of_mem a hx))]

theorem filterMap_all_none {α β : Type} (f : α → Option β) :
    ∀ l : List α, (∀ x ∈ l, f x = none) → l.filterMap f = [] := by
  intro l
  induction l with
  | nil => intro _; rfl
  | cons a l ih =>
      intro h
      rw [List.filterMap_cons, h a (List.mem_cons_self a l),
        ih (fun x hx => h x (List.mem_cons_of_mem a hx))]

theorem filter_all_false {α : Type} (p : α → Bool) :
    ∀ l : List α, (∀ x ∈ l, p x = false) → l.filter p = [] := by
  intro l
  induction l with
  | nil => intro _; rfl
  | cons a l ih =>
      intro h
      rw [List.filter_cons, h a (List.mem_cons_self a l)]
      simp only [Bool.false_eq_true, if_false]
      exact ih (fun x hx => h x (List.mem_cons_of_mem a hx))

theorem filter_all_true {α : Type} (p : α → Bool) :
    ∀ l : List α, (∀ x ∈ l, p x = true) → l.filter p = l := by
  intro l
  induction l with
  | nil => intro _; rfl
  | cons a l ih =>
      intro h
      rw [List.filter_cons, h a (List.mem_cons_self a l)]
      simp only [if_true]
      rw [ih (fun x hx => h x (List.mem_cons_of_mem a hx))]

theorem nonHeaderTs_sortScnFile (lines : List String) :
    nonHeaderTs (sortScnFile lines)
      = (sortLe lexLe (splitScn 0 lines).2.1).map (fun x => x.1) := by
  unfold nonHeaderTs sortScnFile
  rw [List.filter_append, List.filter_append]
  rw [filter_all_false _ _ (fun x hx => by
    simp [splitScn_header_mem lines 0 x hx])]
  rw [filter_all_true _ _ (fun x hx => by
    rcases List.mem_map.mp hx with ⟨y, hy, rfl⟩
    have hy' := ((sortLe_perm lexLe _).mem_iff).mp hy
    simp [(splitScn_stamped_mem lines 0 y hy').2.1])]
  rw [filter_all_true _ _ (fun x hx => by
    rcases List.mem_map.mp hx with ⟨y, hy, rfl⟩
    simp [(splitScn_nonstamped_mem lines 0 y hy).2])]
  rw [List.nil_append, List.filterMap_append, List.filterMap_map, List.filterMap_map]
  rw [filterMap_all_none (parseTs ∘ fun p : ℕ × String => p.2) ((splitScn 0 lines).2.2)
    (fun x hx => by exact (splitScn_nonstamped_mem lines 0 x hx).1)]
  rw [List.append_nil]
  exact filterMap_congr_some (parseTs ∘ fun x : Ts × ℕ × String => x.2.2)
    (fun x : Ts × ℕ × String => x.1) _ (fun x hx => by
      have hx' := ((sortLe_perm lexLe _).mem_iff).mp hx
      exact (splitScn_stamped_mem lines 0 x hx').1)

theorem chainLeB_of_pairwise : ∀ l : List Ts,
    l.Pairwise (fun a b => a.le b = true) → chainLeB l = true := by
  intro l
  induction l with
  | nil => intro _; rfl
  | cons a l ih =>
      intro h
      rcases List.pairwise_cons.mp h with ⟨ha, hl⟩
      cases l with
      | nil => rfl
      | cons b rest =>
          show (a.le b && chainLeB (b :: rest)) = true
          rw [ha b (List.mem_cons_self b rest), ih hl]
          rfl

theorem chronOk_sortScnFile (lines : List String) : chronOk (sortScnFile lines) := by
  unfold chronOk
  rw [nonHeaderTs_sortScnFile]
  have hp := sortLe_pairwise lexLe lexLe_total lexLe_trans (splitScn 0 lines).2.1
  have hp2 : (sortLe lexLe (splitScn 0 lines).2.1).Pairwise
      (fun x y => x.1.le y.1 = true) := by
    refine hp.imp ?_
    intro a b hab
    rcases (lexLe_iff a b).mp hab with h | ⟨h, _⟩
    · exact (Ts.le_iff_toQ _ _).mpr h.le
    · exact (Ts.le_iff_toQ _ _).mpr h.le
  exact chainLeB_of_pairwise _ (List.pairwise_map.mpr hp2)

theorem sortScnFile_perm (lines : List String) : (sortScnFile lines).Perm lines := by
  unfold sortScnFile
  refine List.Perm.trans ?_ (splitScn_perm lines 0)
  exact List.Perm.append_right _
    (List.Perm.append_left _ (((sortLe_perm lexLe _)).map _))

theorem sortScnFile_stamped_strict (lines : List String) :
    (sortLe lexLe (splitScn 0 lines).2.1).Pairwise
      (fun a b => a.1.toQ < b.1.toQ ∨ (a.1.toQ = b.1.toQ ∧ a.2.1 < b.2.1)) := by
  have h1 := sortLe_pairwise lexLe lexLe_total lexLe_trans (splitScn 0 lines).2.1
  have hsIdx : ((splitScn 0 lines).2.1.map (fun x => x.2.1)).Nodup := by
    exact List.pairwise_map.mpr
      ((splitScn_stamped_pairwise lines 0).imp (fun h => Nat.ne_of_lt h))
  have hperm : ((sortLe lexLe (splitScn 0 lines).2.1).map (fun x => x.2.1)).Perm
      ((splitScn 0 lines).2.1.map (fun x => x.2.1)) := (sortLe_perm lexLe _).map _
  have hsortedIdx : ((sortLe lexLe (splitScn 0 lines).2.1).map (fun x => x.2.1)).Nodup :=
    hperm.symm.nodup hsIdx
  have h2 : (sortLe lexLe (splitScn 0 lines).2.1).Pairwise
      (fun a b => a.2.1 ≠ b.2.1) := List.pairwise_map.mp hsortedIdx
  refine (h1.and h2).imp ?_
  intro a b hab
  rcases (lexLe_iff a b).mp hab.1 with h | ⟨h, h'⟩
  · exact Or.inl h
  · exact Or.inr ⟨h, lt_of_le_of_ne h' hab.2⟩

theorem candDigits_injective (root : String) (w : ℕ) :
    Function.Injective (candDigits root w) := by
  intro a b h
  have hdata : (candDigits root w a).data = (candDigits root w b).data := by rw [h]
  unfold candDigits at hdata
  rw [String.data_append, String.data_append] at hdata
  have h2 := List.append_cancel_left hdata
  have h3 : charsVal ((zfill w (natStr a)).data) = charsVal ((zfill w (natStr b)).data) := by
    rw [h2]
  rwa [charsVal_zfill_natStr, charsVal_zfill_natStr] at h3

theorem candUnderscore_injective (base : String) :
    Function.Injective (candUnderscore base) := by
  intro a b h
  have hdata : (candUnderscore base a).data = (candUnderscore base b).data := by rw [h]
  unfold candUnderscore at hdata
  rw [String.data_append, String.data_append, String.data_append, String.data_append] at hdata
  have h2 := List.append_cancel_left hdata
  have h3 : charsVal ((natStr a).data) = charsVal ((natStr b).data) := by rw [h2]
  rwa [charsVal_natStr, charsVal_natStr] at h3

theorem firstFresh_spec (f : ℕ → String) (used : Finset String)
    (hinj : Function.Injective f) : f (firstFresh f used) ∉ used := by
  unfold firstFresh
  cases hfind : (List.range (used.card + 1)).find? (fun k => !(decide (f k ∈ used))) with
  | some k =>
      simp only [Option.getD_some]
      have := List.find?_some hfind
      simpa using this
  | none =>
      exfalso
      have hall : ∀ k ∈ Finset.range (used.card + 1), f k ∈ used := by
        intro k hk
        have := List.find?_eq_none.mp hfind k (List.mem_range.mpr (Finset.mem_range.mp hk))
        simpa using this
      have hcard : used.card < (Finset.range (used.card + 1)).card := by simp
      obtain ⟨x, hx, y, hy, hxy, hfxy⟩ :=
        Finset.exists_ne_map_eq_of_card_lt_of_maps_to hcard hall
      exact hxy (hinj hfxy)

theorem nextUniqueAcid_not_mem (base : String) (used : Finset String) :
    nextUniqueAcid base used ∉ used := by
  unfold nextUniqueAcid
  split
  · next h => exact h
  · next h =>
      cases hsp : splitTrailing base with
      | some rn =>
          have hinj : Function.Injective
              (fun k => candDigits rn.1 rn.2.data.length (charsVal rn.2.data + 1 + k)) := by
            intro a b hab
            have := candDigits_injective rn.1 rn.2.data.length hab
            omega
          exact firstFresh_spec _ used hinj
      | none =>
          have hinj : Function.Injective (fun k => candUnderscore base (2 + k)) := by
            intro a b hab
            have := candUnderscore_injective base hab
            omega
          exact firstFresh_spec _ used hinj

theorem assignAcids_spec : ∀ (acids : List String) (used : Finset String) (vals : List String),
    vals.toFinset ⊆ used →
    (((assignAcids acids used vals).map Prod.snd).Nodup ∧
      ∀ x ∈ (assignAcids acids used vals).map Prod.snd, x ∉ used) := by
  intro acids
  induction acids with
  | nil => intro used vals _; simp [assignAcids]
  | cons acid rest ih =>
      intro used vals hv
      have hnew : (if acid ∈ used ∨ acid ∈ vals then
          nextUniqueAcid acid (used ∪ vals.toFinset) else acid) ∉ used := by
        split
        · next _ =>
            intro hmem
            exact nextUniqueAcid_not_mem acid (used ∪ vals.toFinset)
              (Finset.mem_union_left _ hmem)
        · next hnin => exact fun hmem => hnin (Or.inl hmem)
      simp only [assignAcids]
      generalize hna : (if acid ∈ used ∨ acid ∈ vals then
          nextUniqueAcid acid (used ∪ vals.toFinset) else acid) = newAcid
      rw [hna] at hnew
      have hv' : (vals ++ [newAcid]).toFinset ⊆ insert newAcid used := by
        intro x hx
        rw [List.toFinset_append, Finset.mem_union] at hx
        rcases hx with hx | hx
        · exact Finset.mem_insert_of_mem (hv hx)
        · simp only [List.toFinset_cons, List.toFinset_nil, insert_emptyc_eq,
            Finset.mem_singleton] at hx
          subst hx
          exact Finset.mem_insert_self _ _
      have hrec := ih (insert newAcid used) (vals ++ [newAcid]) hv'
      constructor
      · simp only [List.map_cons]
        refine List.nodup_cons.mpr ⟨?_, hrec.1⟩
        intro hmem
        exact (hrec.2 newAcid hmem) (Finset.mem_insert_self _ _)
      · intro x hx
        simp only [List.map_cons, List.mem_cons] at hx
        rcases hx with rfl | hx
        · exact hnew
        · exact fun hmem => (hrec.2 x hx) (Finset.mem_insert_of_mem hmem)

theorem altcrossLevels_straddles (fl1 fl2 flc : ℤ) :
    straddles (altcrossLevels fl1 fl2 flc).1 (altcrossLevels fl1 fl2 flc).2 flc := by
  simp only [altcrossLevels, nudgeLevels, straddles]
  split_ifs <;> simp_all

/-- C5: for every generated encounter in altitude-crossing mode with
target level `L`, the two rendered start flight levels straddle `L`: one
strictly above and the other strictly below. -/
theorem C5_altcross_straddle (destFn : ℚ → ℚ → ℚ → ℚ → ℚ × ℚ) (typ : GcType)
    (cpaLat cpaLon tcpa : ℚ) (flCpa : Option ℤ) (angleIn : Option ℚ)
    (cas1s cas2s : ℚ) (fl1s fl2s : ℤ) (brg1 angleS : ℚ) :
    straddles
      (gcCompute destFn typ AltMode.altcross cpaLat cpaLon tcpa flCpa angleIn
        cas1s cas2s fl1s fl2s brg1 angleS).fl1Start
      (gcCompute destFn typ AltMode.altcross cpaLat cpaLon tcpa flCpa angleIn
        cas1s cas2s fl1s fl2s brg1 angleS).fl2Start
      (gcCompute destFn typ AltMode.altcross cpaLat cpaLon tcpa flCpa angleIn
        cas1s cas2s fl1s fl2s brg1 angleS).flCpa1 := by
  simp only [gcCompute]
  exact altcrossLevels_straddles fl1s fl2s _

/-- C4 counterexample: with target level 400 and sampled levels
`fl1 = 300 < fl2 = 350` (no straddle after the nudge), the correction
does not push the lower sampled level below the target — it pushes
aircraft 1 (the lower) to 410, above the target. -/
theorem C4_counterexample : ¬ c4LowerBelowHigherAbove 300 350 400 := by decide

/-- C4 (amended): whenever the two sampled flight levels fail to
straddle the target after the equal-level nudge, the correction pushes
aircraft 1's level strictly above the target and aircraft 2's level
strictly below it, regardless of which sampled level was lower. -/
theorem C4_amended (fl1 fl2 flc : ℤ)
    (h : ¬ straddles (nudgeLevels fl1 fl2 flc).1 (nudgeLevels fl1 fl2 flc).2 flc) :
    flc < (altcrossLevels fl1 fl2 flc).1 ∧ (altcrossLevels fl1 fl2 flc).2 < flc := by
  simp only [altcrossLevels, nudgeLevels, straddles] at *
  split_ifs at * <;> simp_all

/-- Witness for C4 (amended) at the counterexample input. -/
theorem C4_amended_witness :
    (¬ straddles (nudgeLevels 300 350 400).1 (nudgeLevels 300 350 400).2 400) ∧
    (400 < (altcrossLevels 300 350 400).1 ∧ (altcrossLevels 300 350 400).2 < 400) :=
  ⟨by decide, C4_amended 300 350 400 (by decide)⟩

theorem overtakeCas_lt (c1 c2 : ℚ) : (overtakeCas c1 c2).1 < (overtakeCas c1 c2).2 := by
  unfold overtakeCas
  split_ifs with h
  · have h1 := le_max_left (5 : ℚ) (0.05 * max c1 c2)
    have h2 := min_le_max (a := c1) (b := c2)
    simp only []
    linarith
  · push_neg at h
    exact h

/-- C6: in every overtaking encounter the rendered airspeed of aircraft
2 is strictly greater than that of aircraft 1; and when the sampled
values have `v2 ≤ v1` they are put in ascending order and the faster is
increased by `max(5 kt, 5% of the faster)`. -/
theorem C6_overtake_faster :
    (∀ (destFn : ℚ → ℚ → ℚ → ℚ → ℚ × ℚ) (am : AltMode) (cpaLat cpaLon tcpa : ℚ)
       (flCpa : Option ℤ) (angleIn : Option ℚ) (cas1s cas2s : ℚ) (fl1s fl2s : ℤ)
       (brg1 angleS : ℚ),
      (gcCompute destFn GcType.overtake am cpaLat cpaLon tcpa flCpa angleIn
        cas1s cas2s fl1s fl2s brg1 angleS).cas1
        < (gcCompute destFn GcType.overtake am cpaLat cpaLon tcpa flCpa angleIn
            cas1s cas2s fl1s fl2s brg1 angleS).cas2) ∧
    (∀ c1 c2 : ℚ, c2 ≤ c1 →
      overtakeCas c1 c2 = (min c1 c2, max c1 c2 + max 5 (0.05 * max c1 c2))) := by
  constructor
  · intro destFn am cpaLat cpaLon tcpa flCpa angleIn cas1s cas2s fl1s fl2s brg1 angleS
    simp only [gcCompute, reduceCtorEq, if_true, if_pos, decide_eq_true_eq]
    have := overtakeCas_lt cas1s cas2s
    simpa using this
  · intro c1 c2 h
    unfold overtakeCas
    rw [if_pos h]

/-- Witness for C6 at the sampled pair `(250, 240)`. -/
theorem C6_witness :
    (gcCompute destModel GcType.overtake AltMode.level 52 4 120 none none
        250 240 300 320 90 90).cas1
      < (gcCompute destModel GcType.overtake AltMode.level 52 4 120 none none
          250 240 300 320 90 90).cas2 ∧
    overtakeCas 250 240 = (min 250 240, max 250 240 + max 5 (0.05 * max 250 240)) :=
  ⟨C6_overtake_faster.1 destModel AltMode.level 52 4 120 none none 250 240 300 320 90 90,
   C6_overtake_faster.2 250 240 (by norm_num)⟩

theorem qmod_270_360 : qmod ((90 : ℚ) + 180) 360 = 270 := by
  unfold qmod
  norm_num

/-- C8: for a head-on encounter with CPA `(52, 4)`, time-to-CPA 120 s,
sampled `airspeed1 = 250` kt and `bearing1 = 90` degrees, aircraft 1 is
back-projected from the CPA along the reciprocal bearing 270 for
`(250/3600)*120 = 25/3` NM with heading 090, and aircraft 2 is
back-projected along bearing 90 (due east) for `25/3 * (v2/250)` NM with
heading 270. -/
theorem C8_headon_geometry (destFn : ℚ → ℚ → ℚ → ℚ → ℚ × ℚ)
    (hper : ∀ la lo b d, destFn la lo (b + 360) d = destFn la lo b d)
    (am : AltMode) (flCpa : Option ℤ) (angleIn : Option ℚ)
    (cas2s : ℚ) (fl1s fl2s : ℤ) (angleS : ℚ) :
    (c8Calc destFn am flCpa angleIn cas2s fl1s fl2s angleS).d1 = 25 / 3 ∧
    (c8Calc destFn am flCpa angleIn cas2s fl1s fl2s angleS).pos1 = destFn 52 4 270 (25 / 3) ∧
    (c8Calc destFn am flCpa angleIn cas2s fl1s fl2s angleS).hdg1 = 90 ∧
    (c8Calc destFn am flCpa angleIn cas2s fl1s fl2s angleS).d2 = 25 / 3 * (cas2s / 250) ∧
    (c8Calc destFn am flCpa angleIn cas2s fl1s fl2s angleS).pos2
      = destFn 52 4 90 (25 / 3 * (cas2s / 250)) ∧
    (c8Calc destFn am flCpa angleIn cas2s fl1s fl2s angleS).hdg2 = 270 := by
  unfold c8Calc
  simp only [gcCompute, reduceCtorEq, decide_eq_true_eq, if_false]
  have h90 : ((90 : ℚ) + 180) = 270 := by norm_num
  have hr90 : pyRound (90 : ℚ) = 90 := by
    have : ((90 : ℚ)) = ((90 : ℤ) : ℚ) := by norm_num
    rw [this, pyRound_intCast]
  have hr270 : pyRound (270 : ℚ) = 270 := by
    have : ((270 : ℚ)) = ((270 : ℤ) : ℚ) := by norm_num
    rw [this, pyRound_intCast]
  refine ⟨by norm_num, ?_, ?_, by ring, ?_, ?_⟩
  · rw [h90]
    norm_num
  · rw [hr90]; decide
  · rw [qmod_270_360]
    have h450 : ((270 : ℚ) + 180) = 90 + 360 := by norm_num
    rw [h450, hper]
    have hd2 : cas2s / 3600 * 120 = 25 / 3 * (cas2s / 250) := by ring
    rw [hd2]
  · rw [qmod_270_360, hr270]; decide

/-- Witness for C8 with a concrete periodic destination function and
`v2 = 300`. -/
theorem C8_witness :
    (c8Calc destModel AltMode.level none none 300 300 320 90).d1 = 25 / 3 ∧
    (c8Calc destModel AltMode.level none none 300 300 320 90).pos1
      = destModel 52 4 270 (25 / 3) ∧
    (c8Calc destModel AltMode.level none none 300 300 320 90).hdg1 = 90 ∧
    (c8Calc destModel AltMode.level none none 300 300 320 90).d2 = 25 / 3 * (300 / 250) ∧
    (c8Calc destModel AltMode.level none none 300 300 320 90).pos2
      = destModel 52 4 90 (25 / 3 * (300 / 250)) ∧
    (c8Calc destModel AltMode.level none none 300 300 320 90).hdg2 = 270 :=
  C8_headon_geometry destModel (fun _ _ _ _ => rfl) AltMode.level none none 300 300 320 90

/-- C9: whenever a track load fails — no CSV files, or the files do not
include both a flights-kind and a points-kind header signature — the
operation reports an error and leaves the track store (flights table,
waypoint sequences, loaded flag) unchanged. -/
theorem C9_load_failure (files : List CsvFile) (st : SState)
    (h : files = [] ∨
      ¬ (files.any (fun f => decide (fileKind f = "flights")) = true ∧
         files.any (fun f => decide (fileKind f = "points")) = true)) :
    (loadFiles files st).1 = false ∧ (loadFiles files st).2.2 = st ∧
    ((loadFiles files st).2.1 = "No CSV files found." ∨
     (loadFiles files st).2.1
       = "Missing required files: need both flights and flights_points (by headers).") := by
  unfold loadFiles
  by_cases he : files.isEmpty
  · simp [he]
  · rcases h with rfl | h
    · simp at he
    · have hand : (files.any (fun f => decide (fileKind f = "flights"))
          && files.any (fun f => decide (fileKind f = "points"))) = false := by
        cases hval : (files.any (fun f => decide (fileKind f = "flights"))
            && files.any (fun f => decide (fileKind f = "points"))) with
        | true => exact absurd (Bool.and_eq_true_iff.mp hval) h
        | false => rfl
      simp [he, hand]

/-- Witness for C9: a flights-only load attempt against a loaded session
state fails and leaves it unchanged. -/
theorem C9_witness :
    (loadFiles [flightsFile ["A1"]] stLoadA).1 = false ∧
    (loadFiles [flightsFile ["A1"]] stLoadA).2.2 = stLoadA ∧
    ((loadFiles [flightsFile ["A1"]] stLoadA).2.1 = "No CSV files found." ∨
     (loadFiles [flightsFile ["A1"]] stLoadA).2.1
       = "Missing required files: need both flights and flights_points (by headers).") :=
  C9_load_failure [flightsFile ["A1"]] stLoadA (Or.inr (by decide))

/-- C10: `SATG_RC_CIRCLE` restores the session's encounter sampling
ranges after every invocation — validation failures leave the state
untouched, and the `finally` block restores the saved ranges whether the
batch body returns or raises. -/
theorem finallyRestore_gcRanges (old : GcRanges) (r : Option Unit × SState) :
    ((finallyRestore old r).2).gcRanges = old := by
  rcases r with ⟨err, st2⟩
  cases err <;> rfl

theorem C10_ranges_restored (args : RcArgs) (body : SState → Option Unit × SState)
    (st : SState) : ((rcCircle args body st).2).gcRanges = st.gcRanges := by
  unfold rcCircle
  split_ifs <;> first | rfl | exact finallyRestore_gcRanges _ _

theorem loadFiles_jitterSubset (files : List CsvFile) (st : SState) :
    (loadFiles files st).2.2.jitterSubset = st.jitterSubset := by
  simp only [loadFiles]
  split_ifs <;> rfl

theorem satgRlJitter_on_subset (sample : Option ℤ → List String → ℕ → Finset String)
    (st : SState) (seed : Option ℤ) (pct : Option ℚ)
    (h : st.basePoints.isEmpty = false) :
    ((satgRlJitter sample st "on" none seed none none none none none pct).2).jitterSubset
      = some (subsetSample sample (match seed with | some s => some s | none => st.jSeed)
          (st.basePoints.map Prod.fst)
          (jitterKOf (match pct with | some v => clampPct v | none => st.jitterPct)
            (st.basePoints.map Prod.fst).length)) := by
  cases seed <;> cases pct <;>
    simp [satgRlJitter, h,
      show (⟨(stripChars "on".data).map Char.toLower⟩ : String) = "on" from rfl]

theorem runSubset_cached (sample : Option ℤ → List String → ℕ → Finset String)
    (st : SState) (S : Finset String) (h : st.jitterSubset = some S) :
    runSubset sample st = some S := by
  unfold runSubset
  rw [if_neg]
  · exact h
  · intro hc
    rw [h] at hc
    exact Option.noConfusion hc.2.1

theorem runSubset_compute (sample : Option ℤ → List String → ℕ → Finset String)
    (st : SState) (hOn : st.jitterOn = true) (hNone : st.jitterSubset = none)
    (hLt : st.jitterPct < 100) :
    runSubset sample st
      = some (subsetSample sample st.jSeed (st.basePoints.map Prod.fst)
          (jitterKOf st.jitterPct (st.basePoints.map Prod.fst).length)) := by
  unfold runSubset
  rw [if_pos ⟨by rw [hOn], hNone, hLt⟩]

/-- C3 (amended): the jitter subset is recomputed from the current track
keys on every `SATG_RL_JITTER on` call when data is loaded, and is
reused unchanged by generation runs whenever one is cached; loading a
track set — same or different — never recomputes or clears it. -/
theorem C3_amended :
    (∀ (files : List CsvFile) (st : SState),
        (loadFiles files st).2.2.jitterSubset = st.jitterSubset) ∧
    (∀ (sample : Option ℤ → List String → ℕ → Finset String) (st : SState)
        (seed : Option ℤ) (pct : Option ℚ), st.basePoints.isEmpty = false →
        ((satgRlJitter sample st "on" none seed none none none none none pct).2).jitterSubset
          = some (subsetSample sample (match seed with | some s => some s | none => st.jSeed)
              (st.basePoints.map Prod.fst)
              (jitterKOf (match pct with | some v => clampPct v | none => st.jitterPct)
                (st.basePoints.map Prod.fst).length))) ∧
    (∀ (sample : Option ℤ → List String → ℕ → Finset String) (st : SState)
        (S : Finset String), st.jitterSubset = some S → runSubset sample st = some S) :=
  ⟨loadFiles_jitterSubset, satgRlJitter_on_subset, runSubset_cached⟩

/-- Witness for C3 (amended) on the concrete session of the
counterexample. -/
theorem C3_amended_witness :
    (loadFiles [flightsFile ["B1", "B2"], pointsFile ["B1", "B2"]] stJit).2.2.jitterSubset
      = stJit.jitterSubset ∧
    ((satgRlJitter sampleTake stLoadA "on" none (some 1) none none none none none
        (some 50)).2).jitterSubset
      = some (subsetSample sampleTake (some 1) (stLoadA.basePoints.map Prod.fst)
          (jitterKOf (clampPct 50) (stLoadA.basePoints.map Prod.fst).length)) ∧
    runSubset sampleTake stCache = some {"X"} :=
  ⟨C3_amended.1 _ _,
   C3_amended.2.1 sampleTake stLoadA (some 1) (some 50) (by decide),
   C3_amended.2.2 sampleTake stCache {"X"} rfl⟩

theorem clampPct_fifty : clampPct 50 = 50 := by
  unfold clampPct
  rw [min_eq_right (by norm_num), max_eq_right (by norm_num)]

/-- C3 counterexample: load `{A1, A2}`, configure jitter (the subset
`{A1}` is computed), then load the different track set `{B1, B2}`: the
subset is not recomputed — it still holds `A1`, an identifier absent
from the new track set. -/
theorem C3_counterexample :
    stLoadB.jitterSubset = stJit.jitterSubset ∧
    stJit.jitterSubset = some {"A1"} ∧
    stLoadB.basePoints.map Prod.fst = ["B1", "B2"] ∧
    "A1" ∉ stLoadB.basePoints.map Prod.fst := by
  refine ⟨loadFiles_jitterSubset _ _, ?_, by decide, by decide⟩
  show ((satgRlJitter sampleTake stLoadA "on" none (some 1) none none none none none
      (some 50)).2).jitterSubset = some {"A1"}
  rw [satgRlJitter_on_subset sampleTake stLoadA (some 1) (some 50) (by decide)]
  have hA : stLoadA.basePoints.map Prod.fst = ["A1", "A2"] := by decide
  rw [hA]
  have hk : jitterKOf (clampPct 50) (["A1", "A2"] : List String).length = 1 := by
    rw [clampPct_fifty]
    unfold jitterKOf
    have h2 : (50 : ℚ) / 100 * ((2 : ℕ) : ℚ) = ((1 : ℤ) : ℚ) := by norm_num
    rw [show ((["A1", "A2"] : List String).length) = 2 from rfl, h2, pyRound_intCast]
  rw [hk]
  decide

theorem pyRound_nonneg_of_nonneg (q : ℚ) (h : 0 ≤ q) : 0 ≤ pyRound q := by
  have := (pyRound_bounds q).1
  have hf : 0 ≤ ⌊q⌋ := Int.floor_nonneg.mpr h
  omega

theorem filter_mem_length (l : List String) (S : Finset String) (hnd : l.Nodup)
    (hsub : ∀ a ∈ S, a ∈ l) :
    (l.filter (fun a => decide (a ∈ S))).length = S.card := by
  have hnd2 : (l.filter (fun a => decide (a ∈ S))).Nodup := hnd.filter _
  rw [← List.toFinset_card_of_nodup hnd2]
  congr 1
  ext x
  simp only [List.mem_toFinset, List.mem_filter, decide_eq_true_eq]
  constructor
  · exact fun hx => hx.2
  · exact fun hx => ⟨hsub x hx, hx⟩

theorem jitterKOf_fifty_three : jitterKOf 50 3 = 2 := by
  unfold jitterKOf
  have h2 : (50 : ℚ) / 100 * ((3 : ℕ) : ℚ) = 3 / 2 := by norm_num
  rw [h2]
  unfold pyRound
  have hf : ⌊(3 / 2 : ℚ)⌋ = 1 := by norm_num
  rw [hf, if_neg (by norm_num), if_neg (by norm_num), if_neg (by norm_num)]
  decide

/-- C7: coverage 0 perturbs no aircraft, coverage 100 perturbs all, and
coverage strictly between 0 and 100 (with no cached subset) perturbs
exactly `round(c/100 * N)` aircraft sampled without replacement; runs
with equal seed, coverage and track set select the same subset. -/
theorem C7_jitter_coverage :
    (∀ (sample : Option ℤ → List String → ℕ → Finset String)
       (fallback : Option ℤ → String → Bool) (st : SState),
        st.jitterPct = 0 → jitteredAcids sample fallback st = []) ∧
    (∀ (sample : Option ℤ → List String → ℕ → Finset String)
       (fallback : Option ℤ → String → Bool) (st : SState),
        st.jitterOn = true → st.basePoints.isEmpty = false → st.jitterPct = 100 →
        jitteredAcids sample fallback st = st.basePoints.map Prod.fst) ∧
    (∀ (sample : Option ℤ → List String → ℕ → Finset String)
       (fallback : Option ℤ → String → Bool) (st : SState),
        st.jitterOn = true → st.basePoints.isEmpty = false → st.jitterSubset = none →
        0 < st.jitterPct → st.jitterPct < 100 →
        (st.basePoints.map Prod.fst).Nodup →
        (sample st.jSeed (st.basePoints.map Prod.fst)
            (jitterKOf st.jitterPct (st.basePoints.map Prod.fst).length).toNat).card
          = (jitterKOf st.jitterPct (st.basePoints.map Prod.fst).length).toNat →
        (∀ a ∈ sample st.jSeed (st.basePoints.map Prod.fst)
            (jitterKOf st.jitterPct (st.basePoints.map Prod.fst).length).toNat,
          a ∈ st.basePoints.map Prod.fst) →
        (jitteredAcids sample fallback st).length
          = (jitterKOf st.jitterPct (st.basePoints.map Prod.fst).length).toNat) ∧
    (∀ (sample : Option ℤ → List String → ℕ → Finset String)
       (fallback : Option ℤ → String → Bool) (st1 st2 : SState),
        st1.basePoints.map Prod.fst = st2.basePoints.map Prod.fst →
        st1.basePoints.isEmpty = st2.basePoints.isEmpty →
        st1.jitterOn = st2.jitterOn → st1.jSeed = st2.jSeed →
        st1.jitterPct = st2.jitterPct → st1.jitterSubset = st2.jitterSubset →
        jitteredAcids sample fallback st1 = jitteredAcids sample fallback st2) := by
  refine ⟨?_, ?_, ?_, ?_⟩
  · intro sample fallback st hp
    by_cases h1 : st.basePoints.isEmpty
    · simp [jitteredAcids, h1]
    · by_cases h2 : st.jitterOn
      · unfold jitteredAcids
        rw [if_neg (by simp [h1]), if_neg (by simp [h2])]
        apply filter_all_false
        intro x _
        simp [shouldJitter, hp]
      · simp [jitteredAcids, h1, h2]
  · intro sample fallback st hOn he hp
    unfold jitteredAcids
    rw [if_neg (by simp [he]), if_neg (by simp [hOn])]
    apply filter_all_true
    intro x _
    simp [shouldJitter, hOn, hp]
  · intro sample fallback st hOn he hNone hp0 hp100 hnd hcard hsub
    unfold jitteredAcids
    rw [if_neg (by simp [he]), if_neg (by simp [hOn])]
    rw [runSubset_compute sample st hOn hNone hp100]
    unfold subsetSample
    by_cases hk : 0 < jitterKOf st.jitterPct (st.basePoints.map Prod.fst).length
    · rw [if_pos hk]
      rw [List.filter_congr (fun a _ => by
        simp [shouldJitter, hOn, not_le.mpr hp0, not_le.mpr hp100] : ∀ a ∈ st.basePoints.map Prod.fst,
          shouldJitter fallback st (some (sample st.jSeed (st.basePoints.map Prod.fst)
            (jitterKOf st.jitterPct (st.basePoints.map Prod.fst).length).toNat)) a
          = decide (a ∈ sample st.jSeed (st.basePoints.map Prod.fst)
              (jitterKOf st.jitterPct (st.basePoints.map Prod.fst).length).toNat))]
      rw [filter_mem_length _ _ hnd hsub, hcard]
    · rw [if_neg hk]
      rw [filter_all_false _ _ (fun x _ => by
        simp [shouldJitter, hOn, not_le.mpr hp0, not_le.mpr hp100])]
      rw [show (jitterKOf st.jitterPct (st.basePoints.map Prod.fst).length).toNat = 0 from
        Int.toNat_of_nonpos (by omega)]
      rfl
  · intro sample fallback st1 st2 hKeys hEmpty hOn hSeed hPct hSub
    unfold jitteredAcids
    have hrs : runSubset sample st1 = runSubset sample st2 := by
      unfold runSubset
      simp only [hOn, hSub, hPct, hKeys, hSeed]
    simp only [hEmpty, hOn, hKeys, hrs]
    by_cases h1 : st2.basePoints.isEmpty
    · simp [h1]
    · by_cases h2 : st2.jitterOn
      · rw [if_neg (by simp [h1]), if_neg (by simp [h2]),
          if_neg (by simp [h1]), if_neg (by simp [h2])]
        apply List.filter_congr
        intro x _
        unfold shouldJitter
        simp only [hOn, hPct, hSeed]
      · rw [if_neg (by simp [h1]), if_pos (by simp [h2]),
          if_neg (by simp [h1]), if_pos (by simp [h2])]

/-- Witness for C7 on a three-aircraft session with seed 1. -/
theorem C7_witness :
    jitteredAcids sampleTake fallbackNone { stW7 with jitterPct := 0 } = [] ∧
    jitteredAcids sampleTake fallbackNone { stW7 with jitterPct := 100 }
      = ({ stW7 with jitterPct := 100 } : SState).basePoints.map Prod.fst ∧
    (jitteredAcids sampleTake fallbackNone stW7).length
      = (jitterKOf stW7.jitterPct (stW7.basePoints.map Prod.fst).length).toNat := by
  have hk : jitterKOf stW7.jitterPct (stW7.basePoints.map Prod.fst).length = 2 :=
    jitterKOf_fifty_three
  refine ⟨C7_jitter_coverage.1 sampleTake fallbackNone _ rfl,
          C7_jitter_coverage.2.1 sampleTake fallbackNone _ rfl rfl rfl,
          C7_jitter_coverage.2.2.1 sampleTake fallbackNone stW7 rfl rfl rfl
            (by decide) (by decide) (by decide) ?_ ?_⟩
  · rw [hk]
    decide
  · rw [hk]
    decide

theorem gcCalcEval :
    gcCompute destModel GcType.headon AltMode.level 52 4 120 none none 250 260 300 320 90 90
      = { cas1 := 250, cas2 := 260, brg2 := 270, d1 := 25 / 3, d2 := 26 / 3,
          pos1 := (52, 4), pos2 := (52, 4), fl1Start := 310, fl2Start := 310,
          flCpa1 := 310, flCpa2 := 310, hdg1 := 90, hdg2 := 270 } := by
  have hflc : pyRound ((((300 : ℤ) : ℚ) + ((320 : ℤ) : ℚ)) / 2) = 310 := by
    have h1 : (((300 : ℤ) : ℚ) + ((320 : ℤ) : ℚ)) / 2 = ((310 : ℤ) : ℚ) := by
      push_cast; norm_num
    rw [h1, pyRound_intCast]
  have h90 : pyRound (90 : ℚ) = 90 := by
    rw [show ((90 : ℚ)) = ((90 : ℤ) : ℚ) by norm_num, pyRound_intCast]
  have h270 : pyRound (270 : ℚ) = 270 := by
    rw [show ((270 : ℚ)) = ((270 : ℤ) : ℚ) by norm_num, pyRound_intCast]
  simp only [gcCompute, destModel, qmod_270_360, hflc, h90, h270]
  rw [if_neg (show ¬ (GcType.headon = GcType.overtake) from by decide)]
  norm_num [GcCalc.mk.injEq]

set_option maxRecDepth 40000 in
/-- C1 counterexample: appending a geometric-conflict encounter (all of
whose lines are stamped at time zero) to a replay file containing a line
stamped at 10 s produces a file whose non-header timestamped lines are
not in non-decreasing timestamp order — `_write_gc_scn` never re-sorts. -/
theorem C1_counterexample :
    ¬ chronOk (satgGcCre destModel true priorRl false GcType.headon AltMode.level
      52 4 120 none none "SC1" "SC2" "A320" "B738" 250 260 300 320 90 90) := by
  unfold satgGcCre gcWrite
  rw [gcCalcEval]
  decide

/-- C1 (amended): the replay writer's closing `_sort_scn_file` pass does
establish the chronological invariant — its output has all non-header
timestamped lines in non-decreasing timestamp order, is a permutation of
the input lines, and keeps the original relative order among lines with
equal timestamps; geometric-conflict writes do not re-sort (see the
counterexample). -/
theorem C1_amended (lines : List String) :
    chronOk (sortScnFile lines) ∧ (sortScnFile lines).Perm lines ∧
    (sortLe lexLe (splitScn 0 lines).2.1).Pairwise
      (fun a b => a.1.toQ < b.1.toQ ∨ (a.1.toQ = b.1.toQ ∧ a.2.1 < b.2.1)) :=
  ⟨chronOk_sortScnFile lines, sortScnFile_perm lines, sortScnFile_stamped_strict lines⟩

set_option maxRecDepth 40000 in
/-- C2 counterexample: appending an encounter whose explicit identifier
`AB3` already appears in the file's creation lines writes a second
`CRE AB3` — `SATG_GC_CRE` renames only the default `SC1`/`SC2` pair. -/
theorem C2_counterexample :
    "AB3" ∈ scanExistingAcids priorAb3 ∧
    ¬ (creScanList (satgGcCre destModel true priorAb3 false GcType.headon AltMode.level
        52 4 120 none none "AB3" "XY9" "A320" "B738" 250 260 300 320 90 90)).Nodup := by
  constructor
  · decide
  · unfold satgGcCre gcWrite
    rw [gcCalcEval]
    decide

/-- C2 (amended): replay appends do rename every colliding identifier —
the batch's output identifiers are pairwise distinct and disjoint from
the file's existing creation identifiers — and `_next_unique_acid`
increments a trailing numeric suffix preserving its zero-padded width
(`AB3` over `{AB3}` gives `AB4`, over `{AB3, AB4}` gives `AB5`);
geometric-conflict appends rename only the default `SC1`/`SC2` pair. -/
theorem C2_amended :
    (∀ (append : Bool) (prior : List String) (acids : List String),
        ((rlNameMap append prior acids).map Prod.snd).Nodup ∧
        (append = true →
          ∀ x ∈ (rlNameMap append prior acids).map Prod.snd, x ∉ scanExistingAcids prior)) ∧
    nextUniqueAcid "AB3" {"AB3"} = "AB4" ∧
    nextUniqueAcid "AB3" {"AB3", "AB4"} = "AB5" := by
  refine ⟨?_, by decide, by decide⟩
  intro append prior acids
  have h := assignAcids_spec acids (if append then scanExistingAcids prior else ∅) []
    (by simp)
  refine ⟨h.1, ?_⟩
  intro happ x hx
  have hx2 := h.2 x hx
  rw [happ] at hx2
  simpa using hx2

/-- Witness for C2 (amended): a replay append of batch `[AB3, XY9]`
against the file already containing `AB3`. -/
theorem C2_amended_witness :
    ((rlNameMap true priorAb3 ["AB3", "XY9"]).map Prod.snd).Nodup ∧
    (∀ x ∈ (rlNameMap true priorAb3 ["AB3", "XY9"]).map Prod.snd,
      x ∉ scanExistingAcids priorAb3) ∧
    nextUniqueAcid "AB3" {"AB3"} = "AB4" :=
  ⟨(C2_amended.1 true priorAb3 ["AB3", "XY9"]).1,
   (C2_amended.1 true priorAb3 ["AB3", "XY9"]).2 rfl,
   C2_amended.2.1⟩

end SATG
